import Mathlib

/-!
Shallow embedding of the spin-button interaction controller
(`useSpinButton`) and the locale number parser (`useNumberParser`)
from the repository, together with theorems settling the frozen claims.

Conventions:
* JavaScript `NaN` results are modelled as `none : Option ℚ`.
* A thrown `TypeError` (calling an `undefined` optional callback) is
  modelled by a `threw` flag in the handler outcome.
* The repeat-timer runtime is modelled as a list of pending one-shot
  timers; `setTimeout` appends a fresh timer and returns its id,
  `clearTimeout` removes a timer by id, and a timer can only fire while
  it is pending (a cleared timer never runs its callback).
-/

namespace Spin

/-- Keys distinguished by the `switch` in `onKeyDown`; `other` stands for
every other key, which reaches no `case`. -/
inductive Key where
  | enter
  | pageUp
  | arrowUp
  | up
  | pageDown
  | arrowDown
  | down
  | home
  | endKey
  | other
deriving DecidableEq

/-- The fields of the keyboard event that `onKeyDown` reads. -/
structure KeyEvent where
  key : Key
  ctrlKey : Bool
  metaKey : Bool
  shiftKey : Bool
  altKey : Bool
deriving DecidableEq

/-- The props destructured by `useSpinButton`.  Each optional callback is
modelled by a presence flag (`true` = the host supplied it); `minValue`
and `maxValue` are `Option` because the code checks them against `null`
and `undefined` with `!= null`. -/
structure SpinButtonProps where
  minValue : Option Int
  maxValue : Option Int
  isDisabled : Bool
  isReadOnly : Bool
  isRequired : Bool
  onIncrement : Bool
  onIncrementPage : Bool
  onDecrement : Bool
  onDecrementPage : Bool
  onDecrementToMin : Bool
  onIncrementToMax : Bool
  onValidate : Bool
deriving DecidableEq

/-- Host callbacks that the controller can invoke. -/
inductive Action where
  | validate
  | increment
  | incrementPage
  | decrement
  | decrementPage
  | decrementToMin
  | incrementToMax
deriving DecidableEq

/-- Observable outcome of one `onKeyDown` call: the host callbacks invoked
(in order), whether `e.preventDefault()` was called, and whether the
handler threw a `TypeError` by invoking an absent callback. -/
structure KeyOutcome where
  actions : List Action
  defaultPrevented : Bool
  threw : Bool
deriving DecidableEq

/-- Translation of the `onKeyDown` handler.  The guard returns early on any
modifier key or on `isReadOnly`.  `Enter` calls `e.preventDefault()` and
then invokes `onValidate()` unconditionally, so with `onValidate` absent it
throws after default was already prevented.  `PageUp` falls through to the
`ArrowUp`/`Up` cases when `onIncrementPage` is absent, and `PageDown` falls
through to `ArrowDown`/`Down` when `onDecrementPage` is absent; the
fallthrough target is itself guarded on its own callback. -/
def onKeyDown (p : SpinButtonProps) (e : KeyEvent) : KeyOutcome :=
  if e.ctrlKey || e.metaKey || e.shiftKey || e.altKey || p.isReadOnly then
    ⟨[], false, false⟩
  else
    match e.key with
    | .enter =>
        if p.onValidate then ⟨[.validate], true, false⟩ else ⟨[], true, true⟩
    | .pageUp =>
        if p.onIncrementPage then ⟨[.incrementPage], true, false⟩
        else if p.onIncrement then ⟨[.increment], true, false⟩
        else ⟨[], false, false⟩
    | .arrowUp =>
        if p.onIncrement then ⟨[.increment], true, false⟩ else ⟨[], false, false⟩
    | .up =>
        if p.onIncrement then ⟨[.increment], true, false⟩ else ⟨[], false, false⟩
    | .pageDown =>
        if p.onDecrementPage then ⟨[.decrementPage], true, false⟩
        else if p.onDecrement then ⟨[.decrement], true, false⟩
        else ⟨[], false, false⟩
    | .arrowDown =>
        if p.onDecrement then ⟨[.decrement], true, false⟩ else ⟨[], false, false⟩
    | .down =>
        if p.onDecrement then ⟨[.decrement], true, false⟩ else ⟨[], false, false⟩
    | .home =>
        if p.minValue.isSome && p.onDecrementToMin then ⟨[.decrementToMin], true, false⟩
        else ⟨[], false, false⟩
    | .endKey =>
        if p.maxValue.isSome && p.onIncrementToMax then ⟨[.incrementToMax], true, false⟩
        else ⟨[], false, false⟩
    | .other => ⟨[], false, false⟩

/-- Observable outcome of one `onBlur` call: callbacks invoked and whether
the handler threw by invoking an absent `onValidate`. -/
structure BlurOutcome where
  actions : List Action
  threw : Bool
deriving DecidableEq

/-- Translation of the `onBlur` handler: it clears the focus flag (tracked
in `AnnounceState`) and then calls `onValidate()` unconditionally. -/
def onBlur (p : SpinButtonProps) : BlurOutcome :=
  if p.onValidate then ⟨[.validate], false⟩ else ⟨[], true⟩

/-- The two spin directions. -/
inductive Direction where
  | increment
  | decrement
deriving DecidableEq

/-- A pending one-shot timer: its runtime id, the direction whose
press-start body its callback re-invokes, and the delay it was armed
with. -/
structure Timer where
  id : Nat
  dir : Direction
  delay : Nat
deriving DecidableEq

/-- State of the repeat machinery: the single shared `_async` ref (it
holds at most one timer id for BOTH directions), the runtime's pending
timers, a fresh-id counter, the number of `onIncrement` and `onDecrement`
invocations, and whether the component is still mounted. -/
structure MachineState where
  asyncHandle : Option Nat
  pending : List Timer
  nextId : Nat
  countInc : Nat
  countDec : Nat
  mounted : Bool
deriving DecidableEq

/-- State at mount: `_async` unset, no timers, no invocations. -/
def initState : MachineState :=
  ⟨none, [], 0, 0, 0, true⟩

/-- Model of `clearTimeout`: remove the timer with the given id from the
pending queue (a no-op if it is not pending). -/
def clearTimeout (id : Nat) (l : List Timer) : List Timer :=
  l.filter (fun t => !(t.id == id))

/-- Translation of `onIncrementPressStart(initialStepDelay)`: invoke
`onIncrement()` once, then `_async.current = setTimeout(..., delay)` —
arm a fresh timer and overwrite the shared handle with its id.  Nothing
is cancelled first and no prop flag is consulted. -/
def onIncrementPressStart (initialStepDelay : Nat) (s : MachineState) : MachineState :=
  { asyncHandle := some s.nextId
    pending := s.pending ++ [⟨s.nextId, .increment, initialStepDelay⟩]
    nextId := s.nextId + 1
    countInc := s.countInc + 1
    countDec := s.countDec
    mounted := s.mounted }

/-- Translation of `onDecrementPressStart(initialStepDelay)`: invoke
`onDecrement()` once, then overwrite the shared `_async` handle with a
fresh timer id. -/
def onDecrementPressStart (initialStepDelay : Nat) (s : MachineState) : MachineState :=
  { asyncHandle := some s.nextId
    pending := s.pending ++ [⟨s.nextId, .decrement, initialStepDelay⟩]
    nextId := s.nextId + 1
    countInc := s.countInc
    countDec := s.countDec + 1
    mounted := s.mounted }

/-- Translation of `onIncrementPressEnd`: `if (_async.current)
clearTimeout(_async.current)`.  It clears whichever timer the SHARED
handle currently stores (whatever its direction) and does not reset the
handle. -/
def onIncrementPressEnd (s : MachineState) : MachineState :=
  match s.asyncHandle with
  | some id => { s with pending := clearTimeout id s.pending }
  | none => s

/-- Translation of `onDecrementPressEnd`: identical body to
`onIncrementPressEnd`, clearing the same shared handle. -/
def onDecrementPressEnd (s : MachineState) : MachineState :=
  match s.asyncHandle with
  | some id => { s with pending := clearTimeout id s.pending }
  | none => s

/-- A pending timer fires: the runtime dequeues it and runs its callback,
which is `() => onIncrementPressStart(60)` for an increment timer and
`() => onDecrementPressStart(75)` for a decrement timer.  A timer that is
not pending (already cleared) never runs.  The source installs no unmount
cleanup for `_async`, so firing is NOT gated on `mounted`. -/
def fireTimer (t : Timer) (s : MachineState) : MachineState :=
  if s.pending.contains t then
    let s1 := { s with pending := clearTimeout t.id s.pending }
    match t.dir with
    | .increment => onIncrementPressStart 60 s1
    | .decrement => onDecrementPressStart 75 s1
  else s

/-- The closure `incrementButtonProps.onPressStart = () =>
onIncrementPressStart(400)`.  It is defined in the scope of the props but
reads none of them (in particular not `isDisabled`). -/
def incrementButtonPropsPressStart (_p : SpinButtonProps) (s : MachineState) : MachineState :=
  onIncrementPressStart 400 s

/-- The closure `decrementButtonProps.onPressStart = () =>
onDecrementPressStart(400)`. -/
def decrementButtonPropsPressStart (_p : SpinButtonProps) (s : MachineState) : MachineState :=
  onDecrementPressStart 400 s

/-- Events that can reach the repeat machinery. -/
inductive Event where
  | pressStartInc
  | pressEndInc
  | pressStartDec
  | pressEndDec
  | fire (t : Timer)
  | unmount
deriving DecidableEq

/-- One event step.  Press events come from the mounted DOM, so they are
gated on `mounted`; timer fires are not (the source registers no cleanup),
and unmount itself cancels nothing. -/
def step (s : MachineState) (e : Event) : MachineState :=
  match e with
  | .pressStartInc => if s.mounted then onIncrementPressStart 400 s else s
  | .pressEndInc => if s.mounted then onIncrementPressEnd s else s
  | .pressStartDec => if s.mounted then onDecrementPressStart 400 s else s
  | .pressEndDec => if s.mounted then onDecrementPressEnd s else s
  | .fire t => fireTimer t s
  | .unmount => { s with mounted := false }

/-- Run an event trace from the mount state. -/
def run (es : List Event) : MachineState :=
  es.foldl step initState

/-- A JavaScript value as it can appear in the `value` prop
(`string | number`, possibly `undefined`); numbers are modelled as
integers, which is enough for the stringification used here. -/
inductive JSVal where
  | num (n : Int)
  | str (s : String)
  | undef
deriving DecidableEq

/-- JavaScript template-literal stringification of the value. -/
def jsvalToString : JSVal → String
  | .num n => toString n
  | .str s => s
  | .undef => "undefined"

/-- The announced text `textValue || `${value}``: the override wins unless
it is falsy (absent or the empty string). -/
def displayedText (textValue : Option String) (value : JSVal) : String :=
  match textValue with
  | some t => if t = "" then jsvalToString value else t
  | none => jsvalToString value

/-- State observed by the announcement effect: the `isFocused` ref and the
dependency values `[textValue, value]` captured at the previous render
(`none` before the first render). -/
structure AnnounceState where
  isFocused : Bool
  prevDeps : Option (Option String × JSVal)
deriving DecidableEq

/-- Events of the focus/announcement lifecycle: DOM focus and blur (which
only toggle the ref and cause no re-render), and a render with fresh
`textValue`/`value` props. -/
inductive UIEvent where
  | focus
  | blur
  | render (textValue : Option String) (value : JSVal)
deriving DecidableEq

/-- One step of the focus/announcement machinery, returning the new state
and the list of `announce` calls emitted.  The effect has dependency array
`[textValue, value]`, so it runs after a render exactly when those values
differ from the previous render (or on the first render), and it announces
only while `isFocused.current` is true. -/
def announceStep (s : AnnounceState) : UIEvent → AnnounceState × List String
  | .focus => ({ s with isFocused := true }, [])
  | .blur => ({ s with isFocused := false }, [])
  | .render tv v =>
      let depsChanged : Bool := !(s.prevDeps == some (tv, v))
      (⟨s.isFocused, some (tv, v)⟩,
        if depsChanged && s.isFocused then [displayedText tv v] else [])

end Spin

namespace NumberParser

/-- Modelled from the spec: the data that `Intl.NumberFormat` probing
recovers for one locale tag (§4.1 of the spec) — the group-separator
glyph, the decimal-separator glyph, and the glyph of each digit 0–9.
`Intl` is a platform API, not part of this repository. -/
structure Locale where
  groupChar : Char
  decimalChar : Char
  numeralOf : Fin 10 → Char

/-- The cached `numberData` descriptor: the characters matched by the
group pattern and the decimal pattern, and the numeral list recovered
from formatting `9876543210` without grouping and reversing, so that the
glyph at position `i` denotes the digit `i`. -/
structure NumberData where
  group : Char
  decimal : Char
  numerals : List Char
deriving DecidableEq

/-- Modelled from the spec: the body of the descriptor effect — probe the
locale's formatting and fill `numberData` with the group glyph, the
decimal glyph, and the ordered numeral list (index 0 = the glyph for
zero). -/
def deriveNumberData (L : Locale) : NumberData :=
  { group := L.groupChar
    decimal := L.decimalChar
    numerals := (List.finRange 10).map L.numeralOf }

/-- Position of the first occurrence of a character in a list. -/
def findPos (c : Char) : List Char → Option Nat
  | [] => none
  | x :: rest => if x == c then some 0 else (findPos c rest).map (· + 1)

/-- The `index` lookup built from the numeral list (the `Map` from glyph
to its position, i.e. its digit value; it agrees with the JavaScript
`Map` whenever the ten glyphs are distinct, which the probe guarantees
for real locales). -/
def numeralIndex (nd : NumberData) (c : Char) : Option Nat :=
  findPos c nd.numerals

/-- JavaScript `String.prototype.trim`: drop whitespace from both ends. -/
def trimChars (l : List Char) : List Char :=
  ((l.dropWhile Char.isWhitespace).reverse.dropWhile Char.isWhitespace).reverse

/-- The global group replacement `.replace(/[g]/g, "")`: delete every
occurrence of the group glyph. -/
def replaceGroup (nd : NumberData) (l : List Char) : List Char :=
  l.filter (fun c => !(c == nd.group))

/-- The non-global decimal replacement `.replace(/[d]/, ".")`: replace
only the first occurrence of the decimal glyph with an ASCII point. -/
def replaceDecimalFirst (nd : NumberData) : List Char → List Char
  | [] => []
  | c :: rest =>
      if c == nd.decimal then '.' :: rest else c :: replaceDecimalFirst nd rest

/-- The global numeral replacement `.replace(/[numerals]/g, index)`:
every numeral glyph is replaced by the decimal digit character of its
index (JavaScript stringifies the number `index.get(d)`, a single digit
for indices 0–9); other characters are untouched. -/
def replaceNumerals (nd : NumberData) (l : List Char) : List Char :=
  l.map (fun c =>
    match numeralIndex nd c with
    | some i => Char.ofNat (48 + i)
    | none => c)

/-- The cleaning pipeline of `parse`: trim, strip group glyphs, normalize
the decimal glyph, substitute numerals. -/
def cleanChars (nd : NumberData) (l : List Char) : List Char :=
  replaceNumerals nd (replaceDecimalFirst nd (replaceGroup nd (trimChars l)))

/-- Value of an ASCII digit string read left to right. -/
def digitsVal (l : List Char) : Nat :=
  l.foldl (fun a c => 10 * a + (c.toNat - 48)) 0

/-- Optional exponent tail after the `e`/`E` marker: an optional sign and
a nonempty digit string. -/
def parseExpTail (l : List Char) : Option Int :=
  let signAndBody : Bool × List Char :=
    match l with
    | [] => (false, [])
    | c :: rest =>
        if c = '-' then (true, rest) else if c = '+' then (false, rest) else (false, l)
  if signAndBody.2 ≠ [] ∧ signAndBody.2.all Char.isDigit then
    some (if signAndBody.1 then -(digitsVal signAndBody.2 : Int) else (digitsVal signAndBody.2 : Int))
  else none

/-- Optional exponent part: empty means exponent 0. -/
def parseExpOpt : List Char → Option Int
  | [] => some 0
  | c :: rest => if c = 'e' ∨ c = 'E' then parseExpTail rest else none

/-- An unsigned ECMAScript decimal literal: `digits [. digits] [exp]` or
`. digits [exp]`, with at least one digit overall.  Returns its exact
rational value. -/
def parseUnsignedDec (l : List Char) : Option ℚ :=
  let intPart := l.takeWhile Char.isDigit
  let rest1 := l.drop intPart.length
  match rest1 with
  | [] => if intPart = [] then none else some (digitsVal intPart : ℚ)
  | c :: rest2 =>
      if c = '.' then
        let fracPart := rest2.takeWhile Char.isDigit
        let rest3 := rest2.drop fracPart.length
        if intPart = [] ∧ fracPart = [] then none
        else
          match parseExpOpt rest3 with
          | some e =>
              some (((digitsVal intPart : ℚ) + (digitsVal fracPart : ℚ) / 10 ^ fracPart.length) * 10 ^ e)
          | none => none
      else if intPart = [] then none
      else
        match parseExpOpt (c :: rest2) with
        | some e => some ((digitsVal intPart : ℚ) * 10 ^ e)
        | none => none

/-- ECMAScript `ToNumber` on a string, restricted to decimal literals: an
all-whitespace string is `+0`; otherwise an optional sign followed by an
unsigned decimal literal; anything else (including `Infinity` and
non-decimal radix literals, which the cleaned inputs of this parser never
produce) is `NaN` (`none`). -/
def jsStringToNumber (l0 : List Char) : Option ℚ :=
  match trimChars l0 with
  | [] => some 0
  | c :: rest =>
      if c = '-' then (parseUnsignedDec rest).map (fun q => -q)
      else if c = '+' then parseUnsignedDec rest
      else parseUnsignedDec (c :: rest)

/-- Translation of `parse`: clean the input, then
`cleaned ? +cleaned : NaN` — the empty (falsy) cleaned string yields
`NaN`, otherwise the cleaned string is coerced with unary plus. -/
def parse (nd : NumberData) (value : String) : Option ℚ :=
  let cleaned := cleanChars nd value.data
  if cleaned = [] then none else jsStringToNumber cleaned

/-- State of the `useNumberParser` hook: the `numberData` ref (`none`
models its initial all-null fields) and whether the descriptor effect has
already run.  The effect's dependency array is empty (`[]`), so it runs
only after the first render. -/
structure HookState where
  numberData : Option NumberData
  effectRan : Bool
deriving DecidableEq

/-- Hook state before the first render. -/
def initialHookState : HookState :=
  ⟨none, false⟩

/-- One render of the hook with the current locale from context, followed
by its effect phase: because the dependency array is `[]`, the effect body
(which reads `locale`) runs only once, after the first render, and later
locale values are ignored. -/
def renderWithLocale (s : HookState) (L : Locale) : HookState :=
  if s.effectRan then s else ⟨some (deriveNumberData L), true⟩

/-- Run the hook over the successive locale values seen at each render. -/
def runLifecycle (ls : List Locale) : HookState :=
  ls.foldl renderWithLocale initialHookState

/-- A decimal number as the host formats it: sign, integer digits,
fraction digits. -/
structure DecimalValue where
  neg : Bool
  intDigits : List (Fin 10)
  fracDigits : List (Fin 10)

/-- Value of a digit list, most significant first. -/
def digitsNatVal (l : List (Fin 10)) : Nat :=
  l.foldl (fun a d => 10 * a + d.val) 0

/-- Exact rational value of a `DecimalValue`. -/
def DecimalValue.toRat (d : DecimalValue) : ℚ :=
  let m : ℚ := (digitsNatVal d.intDigits : ℚ) + (digitsNatVal d.fracDigits : ℚ) / 10 ^ d.fracDigits.length
  if d.neg then -m else m

/-- Insert the group glyph after every three digits counted from the
right (auxiliary: the list arrives reversed). -/
def groupAux (g : Char) : List Char → List Char
  | a :: b :: c :: d :: rest => a :: b :: c :: g :: groupAux g (d :: rest)
  | l => l

/-- Standard digit grouping in blocks of three from the right. -/
def insertGroups (g : Char) (l : List Char) : List Char :=
  (groupAux g l.reverse).reverse

/-- Modelled from the spec: formatting a value "by L's own
numeral/group/decimal rules" (§8) — the platform `Intl.NumberFormat`
output is not part of this repository.  The integer digits are written in
the locale's numerals with group glyphs in blocks of three from the
right, the fraction (when nonempty) follows the locale's decimal glyph,
and a negative value carries a leading ASCII minus. -/
def format (L : Locale) (d : DecimalValue) : List Char :=
  (if d.neg then ['-'] else []) ++
    insertGroups L.groupChar (d.intDigits.map L.numeralOf) ++
    (if d.fracDigits = [] then []
     else L.decimalChar :: d.fracDigits.map L.numeralOf)

/-- Well-formedness of a locale's formatting data, satisfied by real
locales: the ten numeral glyphs are pairwise distinct, are not whitespace
and differ from the group glyph, the decimal glyph, the ASCII point and
the ASCII minus; the group and decimal glyphs are distinct, differ from
the ASCII minus and are not whitespace. -/
def Locale.WellFormed (L : Locale) : Prop :=
  (∀ i j : Fin 10, L.numeralOf i = L.numeralOf j → i = j) ∧
  (∀ i : Fin 10, (L.numeralOf i).isWhitespace = false) ∧
  (∀ i : Fin 10, L.numeralOf i ≠ L.groupChar) ∧
  (∀ i : Fin 10, L.numeralOf i ≠ L.decimalChar) ∧
  (∀ i : Fin 10, L.numeralOf i ≠ '.') ∧
  (∀ i : Fin 10, L.numeralOf i ≠ '-') ∧
  L.groupChar ≠ L.decimalChar ∧
  L.groupChar ≠ '-' ∧
  L.decimalChar ≠ '-' ∧
  L.groupChar.isWhitespace = false ∧
  L.decimalChar.isWhitespace = false

instance (L : Locale) : Decidable L.WellFormed := by
  unfold Locale.WellFormed
  infer_instance

/-- ASCII digit character of a digit value. -/
def digitChar (i : Fin 10) : Char :=
  Char.ofNat (48 + i.val)

/-- A Latin-digit locale with comma groups and point decimal (the shape
of "en-US"). -/
def enUS : Locale :=
  ⟨',', '.', digitChar⟩

/-- A Latin-digit locale with point groups and comma decimal (the shape
of "de-DE"). -/
def deDE : Locale :=
  ⟨'.', ',', digitChar⟩

end NumberParser

namespace Spin

/-- C1 counterexample.  The claim of per-direction independence fails on
the code: after press-start(increment), press-start(decrement),
press-end(increment), the shared `_async` handle holds the DECREMENT
timer, so releasing the increment button cancels the decrement timer
(id 1 is gone from the pending queue) while the increment timer (id 0)
survives its own button's release.  Moreover two press-starts in the same
direction leave two live increment timers, refuting "at most one live
timer per direction". -/
theorem spin_per_direction_independence_counterexample :
    (run [.pressStartInc, .pressStartDec, .pressEndInc]).pending = [⟨0, .increment, 400⟩] ∧
    ((run [.pressStartInc, .pressStartInc]).pending.filter
        (fun t => t.dir == Direction.increment)).length = 2 := by
  decide

/-- C1 amended: the repeat machinery keeps a SINGLE timer handle shared by
both directions.  Press-end in either direction is the same operation
(both handlers clear whichever timer the shared handle currently stores),
press-start in either direction overwrites the shared handle with the
fresh timer's id while every previously pending timer stays live, and
holding both buttons simultaneously therefore interferes: the concrete
trace shows press-end(increment) cancelling the decrement timer and
leaving the increment timer running. -/
theorem spin_shared_timer_handle :
    (∀ s : MachineState, onIncrementPressEnd s = onDecrementPressEnd s) ∧
    (∀ (s : MachineState) (d : Nat),
      (onIncrementPressStart d s).asyncHandle = some s.nextId ∧
      (onDecrementPressStart d s).asyncHandle = some s.nextId) ∧
    (∀ (s : MachineState) (d : Nat) (t : Timer), t ∈ s.pending →
      t ∈ (onIncrementPressStart d s).pending ∧ t ∈ (onDecrementPressStart d s).pending) ∧
    (run [.pressStartInc, .pressStartDec, .pressEndInc]).pending = [⟨0, .increment, 400⟩] := by
  refine ⟨fun s => rfl, fun s d => ⟨rfl, rfl⟩, fun s d t h => ⟨?_, ?_⟩, by decide⟩
  · exact List.mem_append_left _ h
  · exact List.mem_append_left _ h

/-- C1 witness: the amended theorem applied to the state after one
press-start, showing that a later press-start keeps the existing timer
pending. -/
theorem spin_shared_timer_handle_witness :
    (⟨0, Direction.increment, 400⟩ : Timer) ∈
      (onIncrementPressStart 60 (run [.pressStartInc])).pending :=
  (spin_shared_timer_handle.2.2.1 (run [.pressStartInc]) 60
    ⟨0, Direction.increment, 400⟩ (by decide)).1

/-- C2: the code leaks the repeat timer.  After press-start(increment)
and unmount, the armed timer is still pending (the source registers no
unmount cleanup for `_async`), it fires after teardown and invokes the
step callback a second time; and a re-press before the pending fire is
not a clearing path either — the orphaned first timer still fires after
the second press was ended, giving a third invocation. -/
theorem spin_unmount_timer_leak :
    (run [.pressStartInc, .unmount]).pending = [⟨0, .increment, 400⟩] ∧
    (run [.pressStartInc, .unmount]).mounted = false ∧
    (run [.pressStartInc, .unmount, .fire ⟨0, .increment, 400⟩]).countInc = 2 ∧
    (run [.pressStartInc, .pressStartInc, .pressEndInc,
        .fire ⟨0, .increment, 400⟩]).countInc = 3 := by
  decide

/-- C3: with every optional callback absent, `Enter` throws a
`TypeError` (calling the undefined `onValidate`, after default was
already prevented) and blur throws for the same reason, while every
other key silently no-ops; the claim that the controller never throws for
absent optional callbacks fails exactly on the unguarded `onValidate()`
calls. -/
theorem onKeyDown_throws_without_onValidate :
    onKeyDown ⟨none, none, false, false, false, false, false, false, false, false, false, false⟩
        ⟨.enter, false, false, false, false⟩ = ⟨[], true, true⟩ ∧
    onBlur ⟨none, none, false, false, false, false, false, false, false, false, false, false⟩ =
      ⟨[], true⟩ ∧
    onKeyDown ⟨none, none, false, false, false, false, false, false, false, false, false, false⟩
        ⟨.pageUp, false, false, false, false⟩ = ⟨[], false, false⟩ ∧
    onKeyDown ⟨none, none, false, false, false, false, false, false, false, false, false, false⟩
        ⟨.arrowUp, false, false, false, false⟩ = ⟨[], false, false⟩ ∧
    onKeyDown ⟨none, none, false, false, false, false, false, false, false, false, false, false⟩
        ⟨.up, false, false, false, false⟩ = ⟨[], false, false⟩ ∧
    onKeyDown ⟨none, none, false, false, false, false, false, false, false, false, false, false⟩
        ⟨.pageDown, false, false, false, false⟩ = ⟨[], false, false⟩ ∧
    onKeyDown ⟨none, none, false, false, false, false, false, false, false, false, false, false⟩
        ⟨.arrowDown, false, false, false, false⟩ = ⟨[], false, false⟩ ∧
    onKeyDown ⟨none, none, false, false, false, false, false, false, false, false, false, false⟩
        ⟨.down, false, false, false, false⟩ = ⟨[], false, false⟩ ∧
    onKeyDown ⟨none, none, false, false, false, false, false, false, false, false, false, false⟩
        ⟨.home, false, false, false, false⟩ = ⟨[], false, false⟩ ∧
    onKeyDown ⟨none, none, false, false, false, false, false, false, false, false, false, false⟩
        ⟨.endKey, false, false, false, false⟩ = ⟨[], false, false⟩ ∧
    onKeyDown ⟨none, none, false, false, false, false, false, false, false, false, false, false⟩
        ⟨.other, false, false, false, false⟩ = ⟨[], false, false⟩ := by
  decide

/-- C8: press-start invokes the step callback exactly once, immediately
and unconditionally (in every state and for every delay, not gated by
anything), and arms exactly one one-shot timer carrying the supplied
initial delay; the concrete trace press-start(increment) then press-end
before any fire yields exactly one increment call and an empty timer
queue; and every fire of a pending timer invokes the step callback of its
direction exactly once. -/
theorem pressStart_immediate_step_once :
    (∀ (s : MachineState) (d : Nat),
      (onIncrementPressStart d s).countInc = s.countInc + 1 ∧
      (onIncrementPressStart d s).countDec = s.countDec ∧
      (onIncrementPressStart d s).pending = s.pending ++ [⟨s.nextId, .increment, d⟩]) ∧
    (∀ (s : MachineState) (d : Nat),
      (onDecrementPressStart d s).countDec = s.countDec + 1 ∧
      (onDecrementPressStart d s).countInc = s.countInc ∧
      (onDecrementPressStart d s).pending = s.pending ++ [⟨s.nextId, .decrement, d⟩]) ∧
    ((run [.pressStartInc, .pressEndInc]).countInc = 1 ∧
      (run [.pressStartInc, .pressEndInc]).pending = []) ∧
    (∀ (s : MachineState) (t : Timer), s.pending.contains t = true →
      (t.dir = .increment →
        (fireTimer t s).countInc = s.countInc + 1 ∧ (fireTimer t s).countDec = s.countDec) ∧
      (t.dir = .decrement →
        (fireTimer t s).countDec = s.countDec + 1 ∧ (fireTimer t s).countInc = s.countInc)) := by
  refine ⟨fun s d => ⟨rfl, rfl, rfl⟩, fun s d => ⟨rfl, rfl, rfl⟩, by decide, ?_⟩
  intro s t h
  have h2 : t ∈ s.pending := by simpa using h
  constructor
  · intro hdir
    simp [fireTimer, h2, hdir, onIncrementPressStart]
  · intro hdir
    simp [fireTimer, h2, hdir, onDecrementPressStart]

/-- C8 witness: the fire clause applied to the state right after one
press-start, with its pending timer. -/
theorem pressStart_immediate_step_once_witness :
    (fireTimer ⟨0, .increment, 400⟩ (run [.pressStartInc])).countInc =
      (run [.pressStartInc]).countInc + 1 :=
  ((pressStart_immediate_step_once.2.2.2 (run [.pressStartInc])
    ⟨0, .increment, 400⟩ (by decide)).1 rfl).1

/-- C10: `isDisabled` gates nothing.  The keyboard handler's outcome is
unchanged by any value of `isDisabled`; pressing ArrowUp on a disabled
(but not read-only) control with `onIncrement` supplied still increments
and suppresses default; the press-start handlers of both spin buttons
read no prop at all (any two props records give the same transition) and
still invoke their step callback and arm the repeat timer; and the only
keyboard gate is a modifier key or `isReadOnly`. -/
theorem isDisabled_does_not_gate :
    (∀ (p : SpinButtonProps) (e : KeyEvent) (b : Bool),
      onKeyDown { p with isDisabled := b } e = onKeyDown p e) ∧
    (∀ (p q : SpinButtonProps) (s : MachineState),
      incrementButtonPropsPressStart p s = incrementButtonPropsPressStart q s ∧
      decrementButtonPropsPressStart p s = decrementButtonPropsPressStart q s) ∧
    (∀ (p : SpinButtonProps) (s : MachineState),
      (incrementButtonPropsPressStart p s).countInc = s.countInc + 1 ∧
      (decrementButtonPropsPressStart p s).countDec = s.countDec + 1 ∧
      (incrementButtonPropsPressStart p s).pending =
        s.pending ++ [⟨s.nextId, .increment, 400⟩]) ∧
    onKeyDown ⟨none, none, true, false, false, true, false, false, false, false, false, false⟩
        ⟨.arrowUp, false, false, false, false⟩ = ⟨[.increment], true, false⟩ ∧
    (∀ (p : SpinButtonProps) (e : KeyEvent),
      (e.ctrlKey || e.metaKey || e.shiftKey || e.altKey || p.isReadOnly) = true →
      onKeyDown p e = ⟨[], false, false⟩) := by
  refine ⟨fun p e b => rfl, fun p q s => ⟨rfl, rfl⟩, fun p s => ⟨rfl, rfl, rfl⟩, by decide, ?_⟩
  intro p e h
  simp [onKeyDown, h]

/-- C9: with no modifier active and the control not read-only, PageUp
with the page callback present invokes it exactly once (and not the
single-step callback), PageUp with the page callback absent falls through
to the single increment when that is present, and produces no effect when
the single-step callback is also absent; PageDown behaves symmetrically
for decrement. -/
theorem pageKeys_fallthrough :
    ∀ (p : SpinButtonProps) (e : KeyEvent),
    e.ctrlKey = false → e.metaKey = false → e.shiftKey = false → e.altKey = false →
    p.isReadOnly = false →
    ((e.key = .pageUp →
      (p.onIncrementPage = true → onKeyDown p e = ⟨[.incrementPage], true, false⟩) ∧
      (p.onIncrementPage = false → p.onIncrement = true →
        onKeyDown p e = ⟨[.increment], true, false⟩) ∧
      (p.onIncrementPage = false → p.onIncrement = false →
        onKeyDown p e = ⟨[], false, false⟩)) ∧
    (e.key = .pageDown →
      (p.onDecrementPage = true → onKeyDown p e = ⟨[.decrementPage], true, false⟩) ∧
      (p.onDecrementPage = false → p.onDecrement = true →
        onKeyDown p e = ⟨[.decrement], true, false⟩) ∧
      (p.onDecrementPage = false → p.onDecrement = false →
        onKeyDown p e = ⟨[], false, false⟩))) := by
  intro p e hc hm hs ha hro
  refine ⟨fun hk => ⟨fun h1 => ?_, fun h1 h2 => ?_, fun h1 h2 => ?_⟩,
    fun hk => ⟨fun h1 => ?_, fun h1 h2 => ?_, fun h1 h2 => ?_⟩⟩ <;>
    simp_all [onKeyDown]

/-- C9 witness: PageUp with the page-increment callback present invokes
exactly that callback. -/
theorem pageKeys_fallthrough_witness :
    onKeyDown ⟨none, none, false, false, false, true, true, false, false, false, false, false⟩
        ⟨.pageUp, false, false, false, false⟩ = ⟨[.incrementPage], true, false⟩ :=
  ((pageKeys_fallthrough
      ⟨none, none, false, false, false, true, true, false, false, false, false, false⟩
      ⟨.pageUp, false, false, false, false⟩ rfl rfl rfl rfl rfl).1 rfl).1 rfl

/-- C7: after any render whose dependency values were previously
recorded, a change of the displayed text (override text if present and
nonempty, otherwise the stringified value) while focused emits exactly
one announcement of that text; while unfocused a render emits no
announcement; and focus and blur events themselves never announce. -/
theorem announce_on_focused_value_change :
    ∀ (s : AnnounceState) (tv tv₀ : Option String) (v v₀ : JSVal),
    s.prevDeps = some (tv₀, v₀) →
    ((s.isFocused = true → displayedText tv v ≠ displayedText tv₀ v₀ →
      (announceStep s (.render tv v)).2 = [displayedText tv v]) ∧
    (s.isFocused = false → (announceStep s (.render tv v)).2 = []) ∧
    (announceStep s .focus).2 = [] ∧ (announceStep s .blur).2 = []) := by
  intro s tv tv₀ v v₀ hprev
  refine ⟨fun hfoc hne => ?_, fun hfoc => ?_, rfl, rfl⟩
  · have hpair : (tv₀, v₀) ≠ (tv, v) := by
      intro hp
      apply hne
      rw [(Prod.mk.injEq _ _ _ _).mp hp |>.1, (Prod.mk.injEq _ _ _ _).mp hp |>.2]
    simp [announceStep, hprev, hfoc, hpair]
  · simp [announceStep, hfoc]

/-- C7 witness: value 5 changing to 6 while focused announces "6" once. -/
theorem announce_on_focused_value_change_witness :
    (announceStep ⟨true, some (none, JSVal.num 5)⟩ (.render none (JSVal.num 6))).2 =
      [displayedText none (JSVal.num 6)] :=
  (announce_on_focused_value_change ⟨true, some (none, JSVal.num 5)⟩ none none
    (JSVal.num 6) (JSVal.num 5) rfl).1 rfl (by decide)

/-- C10 witness: a read-only control ignores ArrowUp entirely. -/
theorem isDisabled_does_not_gate_witness :
    onKeyDown ⟨none, none, false, true, false, true, false, false, false, false, false, false⟩
        ⟨.arrowUp, false, false, false, false⟩ = ⟨[], false, false⟩ :=
  isDisabled_does_not_gate.2.2.2.2
    ⟨none, none, false, true, false, true, false, false, false, false, false, false⟩
    ⟨.arrowUp, false, false, false, false⟩ (by decide)

end Spin

namespace NumberParser

/-- C4: the descriptor is NOT recomputed when the locale changes.  The
effect has an empty dependency array, so after rendering first with the
"en-US"-shaped locale and then with the "de-DE"-shaped locale the cached
`numberData` is still the one derived from the first locale; the second
render has no effect at all, although the two locales derive different
descriptors. -/
theorem numberData_stale_after_locale_change :
    (runLifecycle [enUS, deDE]).numberData = some (deriveNumberData enUS) ∧
    runLifecycle [enUS, deDE] = runLifecycle [enUS] ∧
    deriveNumberData enUS ≠ deriveNumberData deDE := by
  decide

/-- C6: the empty string and an all-whitespace string parse to `NaN`
(modelled as `none`), any input whose cleaned form is empty parses to
`NaN` rather than `0`, and `parse` is total — it always returns either
the `NaN` sentinel or a number, for every descriptor and every input. -/
theorem parse_empty_is_NaN :
    ∀ nd : NumberData,
    parse nd "" = none ∧
    parse nd "   " = none ∧
    (∀ s : String, cleanChars nd s.data = [] → parse nd s = none) ∧
    (∀ s : String, parse nd s = none ∨ ∃ q, parse nd s = some q) := by
  intro nd
  refine ⟨rfl, rfl, fun s h => ?_, fun s => ?_⟩
  · simp [parse, h]
  · cases hq : parse nd s
    · exact Or.inl rfl
    · exact Or.inr ⟨_, rfl⟩

/-- C6 witness: an input consisting only of group separators cleans to
the empty string and parses to `NaN`. -/
theorem parse_empty_is_NaN_witness :
    parse (deriveNumberData enUS) ",," = none :=
  (parse_empty_is_NaN (deriveNumberData enUS)).2.2.1 ",," (by decide)

end NumberParser

namespace NumberParser

theorem dropWhile_eq_self_of_all {p : Char → Bool} {l : List Char}
    (h : ∀ c ∈ l, p c = false) : l.dropWhile p = l := by
  cases l with
  | nil => rfl
  | cons c rest =>
      rw [List.dropWhile_cons]
      simp [h c (List.mem_cons_self c rest)]

theorem trimChars_eq_self {l : List Char}
    (h : ∀ c ∈ l, c.isWhitespace = false) : trimChars l = l := by
  unfold trimChars
  rw [dropWhile_eq_self_of_all h]
  rw [dropWhile_eq_self_of_all (fun c hc => h c (List.mem_reverse.mp hc))]
  exact List.reverse_reverse l

theorem groupAux_filter (g : Char) (l : List Char) :
    (groupAux g l).filter (fun c => !(c == g)) = l.filter (fun c => !(c == g)) := by
  induction l using groupAux.induct g with
  | case1 a b c d rest ih =>
      simp [groupAux, List.filter_cons, ih]
  | case2 l h =>
      rcases l with _ | ⟨a, _ | ⟨b, _ | ⟨c, _ | ⟨d, rest⟩⟩⟩⟩
      · rfl
      · rfl
      · rfl
      · rfl
      · exact (h a b c d rest rfl).elim

theorem filter_eq_self_of_not_beq {g : Char} {l : List Char}
    (h : ∀ c ∈ l, (c == g) = false) : l.filter (fun c => !(c == g)) = l :=
  List.filter_eq_self.mpr (fun c hc => by rw [h c hc]; rfl)

theorem insertGroups_filter {g : Char} {l : List Char}
    (h : ∀ c ∈ l, (c == g) = false) :
    (insertGroups g l).filter (fun c => !(c == g)) = l := by
  unfold insertGroups
  rw [List.filter_reverse, groupAux_filter, List.filter_reverse,
    filter_eq_self_of_not_beq h, List.reverse_reverse]

theorem takeWhile_eq_self_of_all {p : Char → Bool} : ∀ {l : List Char},
    (∀ c ∈ l, p c = true) → l.takeWhile p = l := by
  intro l
  induction l with
  | nil => intro _; rfl
  | cons c rest ih =>
      intro h
      rw [List.takeWhile_cons]
      simp only [h c (List.mem_cons_self c rest), if_true]
      rw [ih (fun x hx => h x (List.mem_cons_of_mem c hx))]

theorem takeWhile_append_stop {p : Char → Bool} {x : Char} (hx : p x = false) :
    ∀ {l1 : List Char} (l2 : List Char), (∀ c ∈ l1, p c = true) →
    (l1 ++ x :: l2).takeWhile p = l1 := by
  intro l1
  induction l1 with
  | nil =>
      intro l2 _
      simp [List.takeWhile_cons, hx]
  | cons c rest ih =>
      intro l2 h
      rw [List.cons_append, List.takeWhile_cons]
      simp only [h c (List.mem_cons_self c rest), if_true]
      rw [ih l2 (fun y hy => h y (List.mem_cons_of_mem c hy))]

theorem replaceDecimalFirst_of_absent {nd : NumberData} : ∀ {l : List Char},
    (∀ c ∈ l, (c == nd.decimal) = false) → replaceDecimalFirst nd l = l := by
  intro l
  induction l with
  | nil => intro _; rfl
  | cons c rest ih =>
      intro h
      rw [replaceDecimalFirst]
      simp only [h c (List.mem_cons_self c rest)]
      simp only [Bool.false_eq_true, if_false]
      rw [ih (fun x hx => h x (List.mem_cons_of_mem c hx))]

theorem replaceDecimalFirst_append (nd : NumberData) : ∀ (l1 l2 : List Char),
    (∀ c ∈ l1, (c == nd.decimal) = false) →
    replaceDecimalFirst nd (l1 ++ nd.decimal :: l2) = l1 ++ '.' :: l2 := by
  intro l1
  induction l1 with
  | nil =>
      intro l2 _
      rw [List.nil_append, replaceDecimalFirst]
      simp
  | cons c rest ih =>
      intro l2 h
      rw [List.cons_append, replaceDecimalFirst]
      simp only [h c (List.mem_cons_self c rest)]
      simp only [Bool.false_eq_true, if_false]
      rw [ih l2 (fun x hx => h x (List.mem_cons_of_mem c hx))]
      rfl

theorem findPos_of_absent {c : Char} : ∀ {l : List Char},
    (∀ x ∈ l, (x == c) = false) → findPos c l = none := by
  intro l
  induction l with
  | nil => intro _; rfl
  | cons x rest ih =>
      intro h
      rw [findPos]
      simp only [h x (List.mem_cons_self x rest)]
      simp only [Bool.false_eq_true, if_false]
      rw [ih (fun y hy => h y (List.mem_cons_of_mem x hy))]
      rfl

theorem digitChar_isDigit : ∀ i : Fin 10, (digitChar i).isDigit = true := by decide

theorem digitChar_not_ws : ∀ i : Fin 10, (digitChar i).isWhitespace = false := by decide

theorem digitChar_sub48 : ∀ i : Fin 10, (digitChar i).toNat - 48 = i.val := by decide

theorem digitChar_ne_special :
    ∀ i : Fin 10, digitChar i ≠ '-' ∧ digitChar i ≠ '+' ∧ digitChar i ≠ '.' := by decide

theorem finRange_ten :
    List.finRange 10 = [0, 1, 2, 3, 4, 5, 6, 7, 8, 9] := by decide

theorem findPos_glyph {f : Fin 10 → Char}
    (hinj : ∀ j k : Fin 10, f j = f k → j = k) (i : Fin 10) :
    findPos (f i) ((List.finRange 10).map f) = some i.val := by
  have hne : ∀ j m : Fin 10, j ≠ m → (f j == f m) = false :=
    fun j m hjm => beq_eq_false_iff_ne.mpr (fun h => hjm (hinj j m h))
  rw [finRange_ten]
  fin_cases i <;> simp [findPos, hne]

theorem numeralIndex_glyph {L : Locale}
    (hinj : ∀ j k : Fin 10, L.numeralOf j = L.numeralOf k → j = k) (i : Fin 10) :
    numeralIndex (deriveNumberData L) (L.numeralOf i) = some i.val := by
  unfold numeralIndex deriveNumberData
  exact findPos_glyph hinj i

theorem numeralIndex_absent {L : Locale} {c : Char}
    (h : ∀ i : Fin 10, L.numeralOf i ≠ c) :
    numeralIndex (deriveNumberData L) c = none := by
  unfold numeralIndex deriveNumberData
  apply findPos_of_absent
  intro x hx
  rcases List.mem_map.mp hx with ⟨i, _, rfl⟩
  exact beq_eq_false_iff_ne.mpr (h i)

theorem replaceNumerals_glyphs {L : Locale}
    (hinj : ∀ j k : Fin 10, L.numeralOf j = L.numeralOf k → j = k)
    (l : List (Fin 10)) :
    replaceNumerals (deriveNumberData L) (l.map L.numeralOf) = l.map digitChar := by
  unfold replaceNumerals
  rw [List.map_map]
  apply List.map_congr_left
  intro i _
  simp only [Function.comp_apply, numeralIndex_glyph hinj i]
  rfl

theorem replaceNumerals_single {L : Locale} {c : Char}
    (h : ∀ i : Fin 10, L.numeralOf i ≠ c) :
    replaceNumerals (deriveNumberData L) [c] = [c] := by
  unfold replaceNumerals
  simp [numeralIndex_absent h]

theorem replaceNumerals_append (nd : NumberData) (l1 l2 : List Char) :
    replaceNumerals nd (l1 ++ l2) = replaceNumerals nd l1 ++ replaceNumerals nd l2 := by
  unfold replaceNumerals
  exact List.map_append _ l1 l2

theorem digitsVal_map_digitChar : ∀ (l : List (Fin 10)) (a : Nat),
    (l.map digitChar).foldl (fun x c => 10 * x + (c.toNat - 48)) a =
      l.foldl (fun x d => 10 * x + d.val) a := by
  intro l
  induction l with
  | nil => intro a; rfl
  | cons d rest ih =>
      intro a
      rw [List.map_cons, List.foldl_cons, List.foldl_cons, digitChar_sub48 d]
      exact ih _

theorem digitsVal_digits (l : List (Fin 10)) :
    digitsVal (l.map digitChar) = digitsNatVal l := by
  unfold digitsVal digitsNatVal
  exact digitsVal_map_digitChar l 0

end NumberParser

namespace NumberParser

theorem map_digitChar_all_digits (l : List (Fin 10)) :
    ∀ c ∈ l.map digitChar, Char.isDigit c = true := by
  intro c hc
  rcases List.mem_map.mp hc with ⟨i, _, rfl⟩
  exact digitChar_isDigit i

theorem parseUnsignedDec_int (l : List (Fin 10)) (hl : l ≠ []) :
    parseUnsignedDec (l.map digitChar) = some (digitsNatVal l : ℚ) := by
  have htw : (l.map digitChar).takeWhile Char.isDigit = l.map digitChar :=
    takeWhile_eq_self_of_all (map_digitChar_all_digits l)
  simp only [parseUnsignedDec, htw, List.drop_length]
  have hmap : l.map digitChar ≠ [] := by
    simp [hl]
  simp [hmap, digitsVal_digits l]

theorem parseUnsignedDec_frac (li lf : List (Fin 10)) (hi : li ≠ []) :
    parseUnsignedDec (li.map digitChar ++ '.' :: lf.map digitChar) =
      some ((digitsNatVal li : ℚ) + (digitsNatVal lf : ℚ) / 10 ^ lf.length) := by
  have hdot : Char.isDigit '.' = false := by decide
  have htw : (li.map digitChar ++ '.' :: lf.map digitChar).takeWhile Char.isDigit
      = li.map digitChar :=
    takeWhile_append_stop hdot (lf.map digitChar) (map_digitChar_all_digits li)
  have hdrop : (li.map digitChar ++ '.' :: lf.map digitChar).drop (li.map digitChar).length
      = '.' :: lf.map digitChar :=
    List.drop_left (li.map digitChar) ('.' :: lf.map digitChar)
  have htwf : (lf.map digitChar).takeWhile Char.isDigit = lf.map digitChar :=
    takeWhile_eq_self_of_all (map_digitChar_all_digits lf)
  have hmap : li.map digitChar ≠ [] := by
    simp [hi]
  simp only [parseUnsignedDec, htw, hdrop, htwf, List.drop_length]
  simp [hmap, digitsVal_digits, parseExpOpt]

end NumberParser

namespace NumberParser

theorem mem_map_digitChar_not_ws (l : List (Fin 10)) :
    ∀ c ∈ l.map digitChar, c.isWhitespace = false := by
  intro c hc
  rcases List.mem_map.mp hc with ⟨i, _, rfl⟩
  exact digitChar_not_ws i

theorem parseUnsignedDec_tail (li lf : List (Fin 10)) (hi : li ≠ []) :
    parseUnsignedDec (li.map digitChar ++
        (if lf = [] then [] else '.' :: lf.map digitChar)) =
      some ((digitsNatVal li : ℚ) + (digitsNatVal lf : ℚ) / 10 ^ lf.length) := by
  cases lf with
  | nil =>
      rw [if_pos rfl, List.append_nil, parseUnsignedDec_int li hi]
      have h0 : digitsNatVal ([] : List (Fin 10)) = 0 := rfl
      simp [h0]
  | cons a tl =>
      rw [if_neg (by simp)]
      exact parseUnsignedDec_frac li (a :: tl) hi

theorem tail_not_ws (li lf : List (Fin 10)) :
    ∀ c ∈ li.map digitChar ++ (if lf = [] then [] else '.' :: lf.map digitChar),
      c.isWhitespace = false := by
  intro c hc
  rcases List.mem_append.mp hc with hc | hc
  · exact mem_map_digitChar_not_ws li c hc
  · cases lf with
    | nil => simp at hc
    | cons a tl =>
        rw [if_neg (by simp)] at hc
        rcases List.mem_cons.mp hc with rfl | hc
        · decide
        · exact mem_map_digitChar_not_ws (a :: tl) c hc

theorem jsStringToNumber_pos (li lf : List (Fin 10)) (hi : li ≠ []) :
    jsStringToNumber (li.map digitChar ++
        (if lf = [] then [] else '.' :: lf.map digitChar)) =
      some ((digitsNatVal li : ℚ) + (digitsNatVal lf : ℚ) / 10 ^ lf.length) := by
  have htrim := trimChars_eq_self (tail_not_ws li lf)
  cases li with
  | nil => exact (hi rfl).elim
  | cons i0 li2 =>
      rw [jsStringToNumber]
      rw [List.map_cons, List.cons_append] at htrim ⊢
      rw [htrim]
      have h1 : digitChar i0 ≠ '-' := (digitChar_ne_special i0).1
      have h2 : digitChar i0 ≠ '+' := (digitChar_ne_special i0).2.1
      simp only [h1, h2, if_false]
      rw [← List.cons_append, ← List.map_cons]
      exact parseUnsignedDec_tail (i0 :: li2) lf hi

theorem jsStringToNumber_negative (li lf : List (Fin 10)) (hi : li ≠ []) :
    jsStringToNumber ('-' :: (li.map digitChar ++
        (if lf = [] then [] else '.' :: lf.map digitChar))) =
      some (-((digitsNatVal li : ℚ) + (digitsNatVal lf : ℚ) / 10 ^ lf.length)) := by
  have htrim : trimChars ('-' :: (li.map digitChar ++
      (if lf = [] then [] else '.' :: lf.map digitChar))) = '-' :: (li.map digitChar ++
      (if lf = [] then [] else '.' :: lf.map digitChar)) := by
    apply trimChars_eq_self
    intro c hc
    rcases List.mem_cons.mp hc with rfl | hc
    · decide
    · exact tail_not_ws li lf c hc
  rw [jsStringToNumber, htrim]
  simp only [if_pos rfl]
  rw [parseUnsignedDec_tail li lf hi]
  rfl

end NumberParser

namespace NumberParser

theorem mem_groupAux {g c : Char} : ∀ {l : List Char}, c ∈ groupAux g l → c = g ∨ c ∈ l := by
  intro l
  induction l using groupAux.induct g with
  | case1 a b x d rest ih =>
      intro hc
      rw [groupAux] at hc
      rcases List.mem_cons.mp hc with rfl | hc
      · exact Or.inr (List.mem_cons_self _ _)
      rcases List.mem_cons.mp hc with rfl | hc
      · exact Or.inr (List.mem_cons_of_mem _ (List.mem_cons_self _ _))
      rcases List.mem_cons.mp hc with rfl | hc
      · exact Or.inr (List.mem_cons_of_mem _ (List.mem_cons_of_mem _ (List.mem_cons_self _ _)))
      rcases List.mem_cons.mp hc with rfl | hc
      · exact Or.inl rfl
      · rcases ih hc with h | h
        · exact Or.inl h
        · exact Or.inr (List.mem_cons_of_mem _ (List.mem_cons_of_mem _ (List.mem_cons_of_mem _ h)))
  | case2 l h =>
      rcases l with _ | ⟨a, _ | ⟨b, _ | ⟨x, _ | ⟨d, rest⟩⟩⟩⟩
      · intro hc; exact Or.inr hc
      · intro hc; exact Or.inr hc
      · intro hc; exact Or.inr hc
      · intro hc; exact Or.inr hc
      · exact (h a b x d rest rfl).elim

theorem mem_insertGroups {g c : Char} {l : List Char} (hc : c ∈ insertGroups g l) :
    c = g ∨ c ∈ l := by
  unfold insertGroups at hc
  rcases mem_groupAux (List.mem_reverse.mp hc) with h | h
  · exact Or.inl h
  · exact Or.inr (List.mem_reverse.mp h)

theorem format_not_ws {L : Locale} (d : DecimalValue)
    (hnw : ∀ i : Fin 10, (L.numeralOf i).isWhitespace = false)
    (hgw : L.groupChar.isWhitespace = false)
    (hdw : L.decimalChar.isWhitespace = false) :
    ∀ c ∈ format L d, c.isWhitespace = false := by
  intro c hc
  unfold format at hc
  rcases List.mem_append.mp hc with hc | hc
  · rcases List.mem_append.mp hc with hc | hc
    · cases hneg : d.neg
      · rw [hneg] at hc
        simp at hc
      · rw [hneg] at hc
        rcases List.mem_cons.mp hc with rfl | hc
        · decide
        · simp at hc
    · rcases mem_insertGroups hc with rfl | hc
      · exact hgw
      · rcases List.mem_map.mp hc with ⟨i, _, rfl⟩
        exact hnw i
  · cases hfr : d.fracDigits with
    | nil =>
        rw [hfr] at hc
        simp at hc
    | cons a tl =>
        rw [hfr, if_neg (by simp)] at hc
        rcases List.mem_cons.mp hc with rfl | hc
        · exact hdw
        · rcases List.mem_map.mp hc with ⟨i, _, rfl⟩
          exact hnw i

end NumberParser

namespace NumberParser

theorem cleanChars_format (L : Locale) (hL : L.WellFormed) (d : DecimalValue) :
    cleanChars (deriveNumberData L) (format L d) =
      (if d.neg then ['-'] else []) ++ d.intDigits.map digitChar ++
        (if d.fracDigits = [] then [] else '.' :: d.fracDigits.map digitChar) := by
  obtain ⟨hinj, hnw, hng, hnd, hndot, hnminus, hgd, hgm, hdm, hgw, hdw⟩ := hL
  have hgroup : (deriveNumberData L).group = L.groupChar := rfl
  have hdec : (deriveNumberData L).decimal = L.decimalChar := rfl
  unfold cleanChars
  rw [trimChars_eq_self (format_not_ws d hnw hgw hdw)]
  have hstep2 : replaceGroup (deriveNumberData L) (format L d) =
      (if d.neg then ['-'] else []) ++ d.intDigits.map L.numeralOf ++
        (if d.fracDigits = [] then []
         else L.decimalChar :: d.fracDigits.map L.numeralOf) := by
    unfold replaceGroup format
    rw [hgroup, List.filter_append, List.filter_append]
    have hsign : (if d.neg then ['-'] else []).filter (fun c => !(c == L.groupChar)) =
        (if d.neg then ['-'] else []) := by
      apply filter_eq_self_of_not_beq
      intro c hc
      cases hneg : d.neg
      · rw [hneg] at hc
        simp at hc
      · rw [hneg] at hc
        rcases List.mem_cons.mp hc with rfl | hc
        · exact beq_eq_false_iff_ne.mpr (fun h => hgm h.symm)
        · simp at hc
    have hint : (insertGroups L.groupChar (d.intDigits.map L.numeralOf)).filter
        (fun c => !(c == L.groupChar)) = d.intDigits.map L.numeralOf := by
      apply insertGroups_filter
      intro c hc
      rcases List.mem_map.mp hc with ⟨i, _, rfl⟩
      exact beq_eq_false_iff_ne.mpr (hng i)
    have hfrac : (if d.fracDigits = [] then []
        else L.decimalChar :: d.fracDigits.map L.numeralOf).filter
          (fun c => !(c == L.groupChar)) =
        (if d.fracDigits = [] then []
         else L.decimalChar :: d.fracDigits.map L.numeralOf) := by
      apply filter_eq_self_of_not_beq
      intro c hc
      cases hfr : d.fracDigits with
      | nil =>
          rw [hfr] at hc
          simp at hc
      | cons a tl =>
          rw [hfr, if_neg (by simp)] at hc
          rcases List.mem_cons.mp hc with rfl | hc
          · exact beq_eq_false_iff_ne.mpr (fun h => hgd h.symm)
          · rcases List.mem_map.mp hc with ⟨i, _, rfl⟩
            exact beq_eq_false_iff_ne.mpr (hng i)
    rw [hsign, hint, hfrac]
  rw [hstep2]
  have hsignbeq : ∀ c ∈ (if d.neg then ['-'] else []), (c == L.decimalChar) = false := by
    intro c hc
    cases hneg : d.neg
    · rw [hneg] at hc
      simp at hc
    · rw [hneg] at hc
      rcases List.mem_cons.mp hc with rfl | hc
      · exact beq_eq_false_iff_ne.mpr (fun h => hdm h.symm)
      · simp at hc
  have hintbeq : ∀ c ∈ d.intDigits.map L.numeralOf, (c == L.decimalChar) = false := by
    intro c hc
    rcases List.mem_map.mp hc with ⟨i, _, rfl⟩
    exact beq_eq_false_iff_ne.mpr (hnd i)
  cases hfr : d.fracDigits with
  | nil =>
      rw [if_pos rfl, if_pos rfl, List.append_nil, List.append_nil]
      have hstep3 : replaceDecimalFirst (deriveNumberData L)
          ((if d.neg then ['-'] else []) ++ d.intDigits.map L.numeralOf) =
          (if d.neg then ['-'] else []) ++ d.intDigits.map L.numeralOf := by
        apply replaceDecimalFirst_of_absent
        intro c hc
        rw [hdec]
        rcases List.mem_append.mp hc with hc | hc
        · exact hsignbeq c hc
        · exact hintbeq c hc
      rw [hstep3, replaceNumerals_append]
      congr 1
      · cases hneg : d.neg
        · rfl
        · exact replaceNumerals_single hnminus
      · exact replaceNumerals_glyphs hinj d.intDigits
  | cons a tl =>
      rw [if_neg (List.cons_ne_nil a tl), if_neg (List.cons_ne_nil a tl)]
      have hbeqs : ∀ c ∈ (if d.neg then ['-'] else []) ++ d.intDigits.map L.numeralOf,
          (c == (deriveNumberData L).decimal) = false := by
        intro c hc
        rw [hdec]
        rcases List.mem_append.mp hc with hc | hc
        · exact hsignbeq c hc
        · exact hintbeq c hc
      have hstep3 := replaceDecimalFirst_append (deriveNumberData L)
        ((if d.neg then ['-'] else []) ++ d.intDigits.map L.numeralOf)
        ((a :: tl).map L.numeralOf) hbeqs
      rw [hdec] at hstep3
      rw [hstep3]
      rw [replaceNumerals_append, replaceNumerals_append]
      have hdotcons : replaceNumerals (deriveNumberData L) ('.' :: (a :: tl).map L.numeralOf) =
          '.' :: (a :: tl).map digitChar := by
        have h1 : ('.' : Char) :: (a :: tl).map L.numeralOf =
            ['.'] ++ (a :: tl).map L.numeralOf := rfl
        rw [h1, replaceNumerals_append, replaceNumerals_single hndot,
          replaceNumerals_glyphs hinj]
        rfl
      rw [hdotcons]
      congr 2
      · cases hneg : d.neg
        · rfl
        · exact replaceNumerals_single hnminus
      · exact replaceNumerals_glyphs hinj d.intDigits

end NumberParser

namespace NumberParser

/-- C5: round-trip.  For every well-formed locale and every decimal value
with a nonempty integer part, parsing (with the descriptor derived from
that locale) the string formatted by that locale's own numeral, group and
decimal rules returns exactly the value. -/
theorem parse_format_roundtrip (L : Locale) (hL : L.WellFormed) (d : DecimalValue)
    (hd : d.intDigits ≠ []) :
    parse (deriveNumberData L) (String.mk (format L d)) = some d.toRat := by
  simp only [parse]
  rw [cleanChars_format L hL d]
  have hne : (if d.neg then ['-'] else []) ++ d.intDigits.map digitChar ++
      (if d.fracDigits = [] then [] else '.' :: d.fracDigits.map digitChar) ≠ [] := by
    intro h
    rcases List.append_eq_nil.mp h with ⟨h1, _⟩
    rcases List.append_eq_nil.mp h1 with ⟨_, h2⟩
    exact hd (List.map_eq_nil_iff.mp h2)
  rw [if_neg hne]
  cases hneg : d.neg
  · simp only [Bool.false_eq_true, if_false, List.nil_append]
    rw [jsStringToNumber_pos d.intDigits d.fracDigits hd]
    simp [DecimalValue.toRat, hneg]
  · simp only [if_true, List.singleton_append, List.cons_append, List.nil_append]
    rw [jsStringToNumber_negative d.intDigits d.fracDigits hd]
    simp [DecimalValue.toRat, hneg]

/-- C5 witness: the round-trip theorem applied to the "de-DE"-shaped
locale and the value 1234.5 (formatted there as "1.234,5"). -/
theorem parse_format_roundtrip_witness :
    parse (deriveNumberData deDE)
        (String.mk (format deDE ⟨false, [1, 2, 3, 4], [5]⟩)) =
      some (DecimalValue.toRat ⟨false, [1, 2, 3, 4], [5]⟩) :=
  parse_format_roundtrip deDE (by decide) ⟨false, [1, 2, 3, 4], [5]⟩ (by decide)

end NumberParser
